import Mathlib

/-!
Shallow embedding of the Sigma private-coin subsystem of the
edge-currency-bitcoin repository: the coin data model (`flowTypes`),
the mint-commitment builder (`src/info/sigma/coinUtils.js`), the
engine extension loops (`zcoinEngineExtension`: restore scan, mint
retry loop, metadata refresh, spend selection) and the CPFP branch of
the generic transaction builder (`src/utils/coinUtils.js`).

The cryptographic oracle `io.sigmaMint` is kept abstract as a function
from (denomination, index) to a (commitment, serialNumber) pair; the
wallet private key is fixed inside that function, which is exactly the
dependency structure of the source (the key is passed unchanged to
every call).
-/

namespace EdgeZcoin

/-- `PrivateCoin` record from `src/info/sigma/flowTypes.js`. -/
structure PrivateCoin where
  value : Nat
  index : Int
  commitment : String
  serialNumber : String
  groupId : Int
  isSpend : Bool
  spendTxId : String
deriving DecidableEq, Repr

/-- `SIGMA_COIN` constant from `flowTypes.js`. -/
def SIGMA_COIN : Nat := 100000000

/-- The fixed ascending denomination ladder from `flowTypes.js`
(decimal strings in the source, consumed by `biggystring` as
arbitrary-precision non-negative integers). -/
def denominations : List Nat :=
  [5000000, 10000000, 50000000, 100000000, 1000000000, 2500000000, 10000000000]

/-- Abstraction of the cryptographic oracle `io.sigmaMint`: maps the
denomination (`value / SIGMA_COIN`) and the derivation index to the
`(commitment, serialNumber)` pair.  The wallet private key is fixed
inside the function. -/
def SigmaOracle : Type := Nat → Int → String × String

/-- `createPrivateCoin(value, privateKey, index, io)` from
`src/info/sigma/coinUtils.js` lines 24-44: calls the oracle with
`denomination = value / SIGMA_COIN` and returns a record with
`groupId: 0`, `isSpend: false`, `spendTxId: ''`. -/
def createPrivateCoin (value : Nat) (oracle : SigmaOracle) (index : Int) : PrivateCoin :=
  let cs := oracle (value / SIGMA_COIN) index
  { value := value
    index := index
    commitment := cs.1
    serialNumber := cs.2
    groupId := 0
    isSpend := false
    spendTxId := "" }

/-- The inner `while (bns.gte(value, denom))` loop of
`getMintCommitmentsForValue` (`src/info/sigma/coinUtils.js` lines
62-72): subtract the denomination, pre-increment the index, create a
coin at the new index, repeat.  Returns the created coins together
with the remaining value and the final index.  The `0 < denom` part of
the guard makes the translation total; the source would not terminate
on a zero denomination, and every ladder entry is positive. -/
def mintWhile (oracle : SigmaOracle) (denom : Nat) (value : Nat) (idx : Int) :
    List PrivateCoin × Nat × Int :=
  if h : 0 < denom ∧ denom ≤ value then
    let idx1 := idx + 1
    let coin := createPrivateCoin denom oracle idx1
    let r := mintWhile oracle denom (value - denom) idx1
    (coin :: r.1, r.2)
  else
    ([], value, idx)
termination_by value
decreasing_by exact Nat.sub_lt (Nat.lt_of_lt_of_le h.1 h.2) h.1

/-- The outer `for (let i = denominations.length - 1; i >= 0; i--)`
loop of `getMintCommitmentsForValue`: the denominations are consumed
from largest to smallest, so the loop is a fold over the reversed
ladder, threading the remaining value and the derivation index. -/
def mintOuter (oracle : SigmaOracle) : List Nat → Nat → Int → List PrivateCoin × Nat × Int
  | [], value, idx => ([], value, idx)
  | denom :: rest, value, idx =>
    let r := mintWhile oracle denom value idx
    let r2 := mintOuter oracle rest r.2.1 r.2.2
    (r.1 ++ r2.1, r2.2)

/-- `getMintCommitmentsForValue(value, privateKey, currentIndex, io)`
from `src/info/sigma/coinUtils.js` lines 46-76.  The source returns
only the coin list (`return result`). -/
def getMintCommitmentsForValue (oracle : SigmaOracle) (value : Nat) (currentIndex : Int) :
    List PrivateCoin :=
  (mintOuter oracle denominations.reverse value currentIndex).1

/-- The full state of the greedy decomposition (coins, remaining
value, final index); the source only returns the coins, the remainder
and the final index being the values of the local variables after the
loop. -/
def mintState (oracle : SigmaOracle) (value : Nat) (currentIndex : Int) :
    List PrivateCoin × Nat × Int :=
  mintOuter oracle denominations.reverse value currentIndex

/-- The list `[a, a+1, ..., a+n-1]` of consecutive integers. -/
def intRange (a : Int) : Nat → List Int
  | 0 => []
  | n + 1 => a :: intRange (a + 1) n

/-- `mintsForSave` as assembled by `ZcoinEngineExtension.makeMint`
(`zcoinEngineExtension`, lines 357-375 and 417-425): the coins of the
last spend target come from `getMintCommitmentsForValue` and are then
overwritten in place with `groupId = -1`, `isSpend = false`,
`spendTxId = ''` before being handed to the coin store. -/
def mintsForSave (oracle : SigmaOracle) (balance : Nat) (currentMaxIndex : Int) :
    List PrivateCoin :=
  (getMintCommitmentsForValue oracle balance currentMaxIndex).map fun coin =>
    { coin with groupId := -1, isSpend := false, spendTxId := "" }

/-! ## Restore scan (`ZcoinEngineExtension.restore`, lines 163-241)

The scan environment is taken after the aggregation loop of lines
183-197: each `coinInfo` of `latestCoinIds` carries the concatenation
of the anonymity sets of its group ids `1..id` in the field
`anonymitySet`, and `commitmentCount` is the total number of published
commitments, i.e. the sum of the lengths of those concatenations. -/

/-- `CoinGroup` as used by the scan: `{denom, id, anonymitySet}`. -/
structure CoinGroup where
  denom : Nat
  id : Int
  anonymitySet : List String
deriving DecidableEq, Repr

/-- The read-only chain data consumed by the restore scan. -/
structure RestoreEnv where
  usedSerials : List String
  groups : List CoinGroup
  oracle : SigmaOracle

/-- `commitmentCount` accumulated at lines 184-196: the total number
of published commitments over all groups. -/
def commitmentCount (env : RestoreEnv) : Nat :=
  (env.groups.map fun g => g.anonymitySet.length).sum

/-- The mutable locals of the `while` loop at lines 199-226. -/
structure ScanState where
  counter : Nat
  index : Int
  coins : List PrivateCoin
deriving DecidableEq, Repr

/-- One body execution of the restore loop, entered with the already
post-incremented `index` (the body sees the new value of `index++`).
The coin value passed to `createPrivateCoin` is hardcoded to
`100000000`; the candidate commitment is looked up in every group's
aggregated anonymity set, and the first match (the `break` at line
223) records a coin with `serialNumber: ''`, `groupId: coinInfo.id`,
`spendTxId: ''` and resets the miss counter. -/
def scanBody (env : RestoreEnv) (s : ScanState) : ScanState :=
  match env.groups.find? fun g =>
      g.anonymitySet.contains (createPrivateCoin 100000000 env.oracle (s.index + 1)).commitment with
  | some g =>
    { counter := 0
      index := s.index + 1
      coins := s.coins ++
        [{ value := g.denom
           index := s.index + 1
           commitment := (createPrivateCoin 100000000 env.oracle (s.index + 1)).commitment
           serialNumber := ""
           groupId := g.id
           isSpend := env.usedSerials.contains
             (createPrivateCoin 100000000 env.oracle (s.index + 1)).serialNumber
           spendTxId := "" }] }
  | none =>
    { counter := s.counter + 1
      index := s.index + 1
      coins := s.coins }

/-- The `while (counter++ < 100 && index++ < commitmentCount)` loop of
lines 199-226.  The loop continues exactly when the pre-increment
values satisfy `counter < 100` and `index < commitmentCount`; inside
the body the counter is the post-increment value (reset to `0` on a
match) and the index is the post-increment value.  On exit the state
is returned unchanged: the post-increments pending at exit only affect
dead local variables.  The loop terminates because `index` strictly
increases every iteration; the fuel `commitmentCount + 2` of
`restoreScan` is enough to reach the exit condition. -/
def restoreLoop (env : RestoreEnv) : Nat → ScanState → ScanState
  | 0, s => s
  | fuel + 1, s =>
    if s.counter < 100 ∧ s.index < (commitmentCount env : Int) then
      restoreLoop env fuel (scanBody env s)
    else
      s

/-- The complete restore scan: counter `0`, index `-1`, no coins. -/
def restoreScan (env : RestoreEnv) : ScanState :=
  restoreLoop env (commitmentCount env + 2) { counter := 0, index := -1, coins := [] }

/-! ## Restore persistence (`ZcoinEngineExtension.restore`, lines 228-241) -/

/-- The persisted wallet state seen by restore: the coin store file
and the boolean `restored` flag of `restore.json`. -/
structure RestoreStore where
  mintFile : Option (List PrivateCoin)
  marker : Bool
deriving DecidableEq, Repr

/-- The final `try` block of `restore` (lines 228-241):
`writeMintedCoins(mintData)` then `setText(RESTORE_FILE, {restored:
true})`, any failure being caught and turned into `return false`.  The
two boolean parameters say whether the corresponding disk write
succeeds; a failing write is modelled as leaving the store unchanged.
Returns the value of `restore` together with the resulting store. -/
def restorePersist (coinsWriteOk markerWriteOk : Bool) (mintData : List PrivateCoin)
    (store : RestoreStore) : Bool × RestoreStore :=
  if coinsWriteOk then
    let store1 : RestoreStore := { store with mintFile := some mintData }
    if markerWriteOk then
      (true, { store1 with marker := true })
    else
      (false, store1)
  else
    (false, store)

/-! ## Group-metadata refresh (`ZcoinEngineExtension.getMintMetadataLoop`,
lines 442-470) -/

/-- One record of `retrieveMintMetadata`. -/
structure MintMetadata where
  pubcoin : String
  groupId : Int
  height : Int
deriving DecidableEq, Repr

/-- The single groupId computation of line 463-466:
`currentHeight - data.height >= 5 ? data.groupId : -1`. -/
def refreshGroupId (currentHeight : Int) (data : MintMetadata) : Int :=
  if 5 ≤ currentHeight - data.height then data.groupId else -1

/-- The effect of `getMintMetadataLoop` on the stored coin list: coins
with a non-empty commitment are entered into `mintsToUpdate`, and each
retrieved record overwrites the groupId of the coin with the matching
commitment, the guard of `refreshGroupId` deciding the written value.
The source keys `mintsToUpdate` by commitment, so when several records
carry the same `pubcoin` the last write wins (`getLast?`). -/
def getMintMetadataLoop (currentHeight : Int) (mintData : List PrivateCoin)
    (retrieved : List MintMetadata) : List PrivateCoin :=
  mintData.map fun coin =>
    if coin.commitment ≠ "" then
      match (retrieved.filter fun m => m.pubcoin = coin.commitment).getLast? with
      | some m => { coin with groupId := refreshGroupId currentHeight m }
      | none => coin
    else coin

/-! ## Spend selection (`ZcoinEngineExtension.makeSpend`, lines 472-517) -/

/-- The approval filter of lines 493-498:
`if (info.groupId && info.groupId !== -1 && !info.isSpend)`.  The
first conjunct is JavaScript truthiness of a number, which excludes
`groupId === 0` as well. -/
def approvedMints (mintData : List PrivateCoin) : List PrivateCoin :=
  mintData.filter fun info => info.groupId ≠ 0 ∧ info.groupId ≠ -1 ∧ info.isSpend = false

/-- Modelled from the spec: `getMintsToSpend` is imported from
`./coinOperations`, a module that is not among the sources.  Following
§4.3 of the spec, the selection deterministically returns a subset of
the given coins whose summed value covers the target whenever such a
subset exists (equivalently, whenever the total value suffices),
prefers few coins by consuming values in descending order, and returns
an empty list otherwise.  This greedy helper takes coins until the
remaining target reaches zero. -/
def selectGreedy : Nat → List PrivateCoin → List PrivateCoin
  | _, [] => []
  | target, coin :: rest =>
    if target = 0 then [] else coin :: selectGreedy (target - coin.value) rest

/-- Modelled from the spec: the selection contract of
`getMintsToSpend(approvedCoins, remainder)` (see `selectGreedy`). -/
def getMintsToSpend (coins : List PrivateCoin) (target : Nat) : List PrivateCoin :=
  if (coins.map fun c => c.value).sum < target then []
  else selectGreedy target (coins.insertionSort fun a b => b.value ≤ a.value)

/-- The selection step of `makeSpend` (lines 493-517): filter the
stored coins through the approval test, run the selection on the
result, and surface an empty selection as `InsufficientFundsError`
(line 515-517). -/
def makeSpendSelect (mintData : List PrivateCoin) (target : Nat) :
    Except String (List PrivateCoin) :=
  let mintsToBeSpend := getMintsToSpend (approvedMints mintData) target
  if mintsToBeSpend.length = 0 then Except.error "InsufficientFundsError"
  else Except.ok mintsToBeSpend

/-! ## The auto-mint retry loop (`ZcoinEngineExtension.mint`,
lines 272-315) -/

/-- Outcome of one `makeMint` attempt at a given amount:
`success` (a transaction was built), `insufficientFunds`
(`e.message === 'InsufficientFundsError'`), or any other error. -/
inductive MintOutcome where
  | success
  | insufficientFunds
  | otherError
deriving DecidableEq, Repr

/-- The `while (tryAgain)` loop of `mint` (lines 272-298), the attempt
oracle giving the outcome of `makeMint` at each amount.  On
`insufficientFunds` with `amount > denominations[0]` the amount is
reduced by `denominations[0]` and the attempt is repeated; every other
failure returns silently (`none`).  `some amount` is the amount at
which a transaction was finally built. -/
def mintLoop (attempt : Nat → MintOutcome) (amount : Nat) : Option Nat :=
  match attempt amount with
  | MintOutcome.success => some amount
  | MintOutcome.otherError => none
  | MintOutcome.insufficientFunds =>
    if h : 5000000 < amount then mintLoop attempt (amount - 5000000) else none
termination_by amount
decreasing_by exact Nat.sub_lt (Nat.lt_of_le_of_lt (Nat.zero_le _) h) (by norm_num)

/-- The number of `makeMint` attempts the loop performs. -/
def mintAttempts (attempt : Nat → MintOutcome) (amount : Nat) : Nat :=
  match attempt amount with
  | MintOutcome.success => 1
  | MintOutcome.otherError => 1
  | MintOutcome.insufficientFunds =>
    if h : 5000000 < amount then mintAttempts attempt (amount - 5000000) + 1 else 1
termination_by amount
decreasing_by exact Nat.sub_lt (Nat.lt_of_le_of_lt (Nat.zero_le _) h) (by norm_num)

/-! ## CPFP branch of the generic UTXO builder
(`src/utils/coinUtils.js`, `createTX`, lines 181-277) -/

/-- A transaction output as seen by the builder. -/
structure TxOut where
  address : String
  value : Nat
deriving DecidableEq, Repr

/-- The part of a parsed transaction the CPFP branch reads. -/
structure BuilderTx where
  txid : String
  outputs : List TxOut
deriving DecidableEq, Repr

/-- `Utxo = { tx, index, height? }` from `src/utils/coinUtils.js`. -/
structure BuilderUtxo where
  tx : BuilderTx
  index : Nat
deriving DecidableEq, Repr

/-- `sumUtxos` (line 339-340): sum of `tx.outputs[index].value` over
the utxos.  An out-of-range index, which would crash the source, is
summed as `0`. -/
def sumUtxos (utxos : List BuilderUtxo) : Nat :=
  (utxos.map fun u => ((u.tx.outputs.get? u.index).map fun o => o.value).getD 0).sum

/-- The sort at lines 217-220.  The source comparator is
`parseInt(b.tx.outputs[b.index]) - parseInt(a.tx.outputs[a.index])`:
`parseInt` is applied to the output OBJECT, not to its `value` field,
so it yields `NaN`, and ECMAScript's `Array.prototype.sort` treats a
`NaN` comparator result as `+0`.  Every pair therefore compares equal
and the (stable) sort leaves the candidate order unchanged; the
faithful translation is the identity. -/
def cpfpSortUtxos (utxos : List BuilderUtxo) : List BuilderUtxo :=
  utxos

/-- Modelled from the spec: `mtx.fund` belongs to the external bcoin
library, which is not among the sources.  Per §4.1, with
`subtractFee` set the fee is subtracted from the supplied output
itself (the single change output in the CPFP build) and no dedicated
change output is attached; the standard-mode change handling is not
needed by the claims and is left as the identity. -/
def fundOutputs (outputs : List TxOut) (fee : Nat) (subtractFee : Bool) : List TxOut :=
  if subtractFee then
    match outputs with
    | [] => []
    | o :: rest => { o with value := o.value - fee } :: rest
  else outputs

/-- The candidate filtering, CPFP preprocessing (lines 211-231), the
`No outputs available.` rejection (lines 233-235) and the fee funding
of `createTX`, returning the selected utxos and the funded outputs.
`CPFP` is the parent transaction id (`''` = no CPFP), `CPFPlimit` the
candidate cap (`0` = unbounded, the `if (CPFPlimit)` truthiness test
at line 222), `fee` the fee the funding step charges. -/
def createTX (utxos : List BuilderUtxo) (outputs : List TxOut) (changeAddress : String)
    (CPFP : String) (CPFPlimit : Nat) (fee : Nat) :
    Except String (List BuilderUtxo × List TxOut) :=
  let state :=
    if CPFP ≠ "" then
      let filtered := utxos.filter fun u => u.tx.txid = CPFP
      let sorted := cpfpSortUtxos filtered
      let limited := if CPFPlimit ≠ 0 then sorted.take CPFPlimit else sorted
      let value := sumUtxos limited
      (limited, outputs ++ [{ address := changeAddress, value := value }], true)
    else
      (utxos, outputs, false)
  if state.2.1.length = 0 then Except.error "No outputs available."
  else Except.ok (state.1, fundOutputs state.2.1 fee state.2.2)

/-! ## Concrete fixtures used by counterexamples and witnesses -/

/-- An oracle returning empty strings everywhere. -/
def oracle0 : SigmaOracle := fun _ _ => ("", "")

/-- A restore environment with no published groups at all:
`commitmentCount = 0`. -/
def env0 : RestoreEnv :=
  { usedSerials := [], groups := [], oracle := oracle0 }

/-- An oracle whose index-0 coin is published; every other index
misses. -/
def oracle1 : SigmaOracle := fun _ i =>
  (if i = 0 then "com0" else "nocom", if i = 0 then "ser0" else "noser")

/-- A restore environment with one group containing exactly the
index-0 commitment, whose serial number is already used on-chain. -/
def env1 : RestoreEnv :=
  { usedSerials := ["ser0"]
    groups := [{ denom := 100000000, id := 1, anonymitySet := ["com0"] }]
    oracle := oracle1 }

/-- A stored coin with `groupId = 0`: eligible under the claimed
approval rule (`groupId != -1` and not spent), but excluded by the
code's truthiness test. -/
def groupZeroCoin : PrivateCoin :=
  { value := 100000000, index := 0, commitment := "c0", serialNumber := ""
    groupId := 0, isSpend := false, spendTxId := "" }

/-- A stored coin in a valid group, spendable. -/
def approvedCoin : PrivateCoin :=
  { value := 100000000, index := 1, commitment := "c1", serialNumber := ""
    groupId := 1, isSpend := false, spendTxId := "" }

/-- A `makeMint` oracle that reports insufficient funds at every
amount. -/
def alwaysInsufficient : Nat → MintOutcome := fun _ => MintOutcome.insufficientFunds

/-- A stored coin whose commitment is known on-chain, groupId still
unset. -/
def metaCoin : PrivateCoin :=
  { value := 100000000, index := 1, commitment := "com0", serialNumber := ""
    groupId := -1, isSpend := false, spendTxId := "" }

/-- `metaCoin` after the metadata refresh assigned group 7. -/
def metaCoin7 : PrivateCoin :=
  { metaCoin with groupId := 7 }

/-- A retrieved metadata record for `metaCoin`, mined at height 0. -/
def meta1 : MintMetadata :=
  { pubcoin := "com0", groupId := 7, height := 0 }

/-- The coin the restore scan records against `env1`: found in group
1, marked already spent, serial number and spend txid left empty. -/
def restoredCoin1 : PrivateCoin :=
  { value := 100000000, index := 0, commitment := "com0", serialNumber := ""
    groupId := 1, isSpend := true, spendTxId := "" }

/-- A parent transaction with two outputs, the larger one second. -/
def cpfpParent : BuilderTx :=
  { txid := "p", outputs := [{ address := "a0", value := 100 },
                             { address := "a1", value := 200 }] }

/-- The two candidate outputs of `cpfpParent` as utxos, in output
order. -/
def cpfpUtxo0 : BuilderUtxo := { tx := cpfpParent, index := 0 }

/-- The second, larger candidate output of `cpfpParent`. -/
def cpfpUtxo1 : BuilderUtxo := { tx := cpfpParent, index := 1 }

/-! ## Lemmas: the greedy mint decomposition -/

lemma intRange_append (n : Nat) : ∀ (a : Int) (m : Nat),
    intRange a n ++ intRange (a + n) m = intRange a (n + m) := by
  induction n with
  | zero => intro a m; simp [intRange]
  | succ n ih =>
    intro a m
    have hcast : a + ((n : Int) + 1) = (a + 1) + n := by ring
    simp only [intRange, Nat.cast_add, Nat.cast_one, List.cons_append, hcast, ih (a + 1) m]
    have : n + 1 + m = (n + m) + 1 := by omega
    rw [this]
    rfl

lemma mem_intRange : ∀ (n : Nat) (a x : Int), x ∈ intRange a n → a ≤ x ∧ x < a + n := by
  intro n
  induction n with
  | zero => intro a x hx; simp [intRange] at hx
  | succ n ih =>
    intro a x hx
    simp only [intRange, List.mem_cons] at hx
    rcases hx with rfl | hx
    · constructor
      · exact le_refl x
      · have : (0 : Int) < (n : Int) + 1 := by positivity
        omega
    · obtain ⟨h1, h2⟩ := ih (a + 1) x hx
      push_cast
      omega

lemma mintWhile_spec (oracle : SigmaOracle) (d : Nat) (hd : 0 < d) : ∀ v i,
    ((mintWhile oracle d v i).1.map fun c => c.value).sum + (mintWhile oracle d v i).2.1 = v
  ∧ (mintWhile oracle d v i).2.1 < d
  ∧ (((mintWhile oracle d v i).1.map fun c => c.index) =
      intRange (i + 1) (mintWhile oracle d v i).1.length)
  ∧ (mintWhile oracle d v i).2.2 = i + (mintWhile oracle d v i).1.length := by
  intro v
  induction v using Nat.strong_induction_on with
  | _ v ih =>
    intro i
    rw [mintWhile]
    by_cases h : d ≤ v
    · rw [dif_pos ⟨hd, h⟩]
      have hlt : v - d < v := Nat.sub_lt (Nat.lt_of_lt_of_le hd h) hd
      obtain ⟨h1, h2, h3, h4⟩ := ih (v - d) hlt (i + 1)
      refine ⟨?_, h2, ?_, ?_⟩
      · simp only [List.map_cons, List.sum_cons, createPrivateCoin]
        omega
      · simp only [List.map_cons, List.length_cons, createPrivateCoin, intRange, h3]
      · simp only [List.length_cons, h4]
        push_cast
        ring
    · rw [dif_neg (by tauto)]
      simp [intRange]
      omega

lemma mintOuter_spec (oracle : SigmaOracle) : ∀ (l : List Nat), (∀ d ∈ l, 0 < d) → ∀ v i,
    ((mintOuter oracle l v i).1.map fun c => c.value).sum + (mintOuter oracle l v i).2.1 = v
  ∧ (((mintOuter oracle l v i).1.map fun c => c.index) =
      intRange (i + 1) (mintOuter oracle l v i).1.length)
  ∧ (mintOuter oracle l v i).2.2 = i + (mintOuter oracle l v i).1.length := by
  intro l
  induction l with
  | nil => intro _ v i; simp [mintOuter, intRange]
  | cons d rest ih =>
    intro hpos v i
    have hd : 0 < d := hpos d (List.mem_cons_self d rest)
    have hrest : ∀ x ∈ rest, 0 < x := fun x hx => hpos x (List.mem_cons_of_mem d hx)
    obtain ⟨w1, w2, w3, w4⟩ := mintWhile_spec oracle d hd v i
    obtain ⟨o1, o2, o3⟩ :=
      ih hrest (mintWhile oracle d v i).2.1 (mintWhile oracle d v i).2.2
    rw [w4] at o2 o3
    simp only [mintOuter]
    refine ⟨?_, ?_, ?_⟩
    · simp only [List.map_append, List.sum_append]
      omega
    · simp only [List.map_append, List.length_append, w3, w4, o2]
      have heq : i + ((mintWhile oracle d v i).1.length : Int) + 1 =
          (i + 1) + ((mintWhile oracle d v i).1.length : Int) := by ring
      rw [heq, intRange_append]
    · simp only [List.length_append, w4, o3]
      push_cast
      ring

lemma mintOuter_lastRem (oracle : SigmaOracle) : ∀ (l : List Nat) (v : Nat) (i : Int) (d : Nat),
    0 < d → (mintOuter oracle (l ++ [d]) v i).2.1 < d := by
  intro l
  induction l with
  | nil =>
    intro v i d hd
    simpa [mintOuter] using (mintWhile_spec oracle d hd v i).2.1
  | cons e rest ih =>
    intro v i d hd
    simpa [mintOuter] using
      ih (mintWhile oracle e v i).2.1 (mintWhile oracle e v i).2.2 d hd

lemma denominations_reverse_pos : ∀ d ∈ denominations.reverse, 0 < d := by decide

lemma mintState_spec (oracle : SigmaOracle) (value : Nat) (i : Int) :
    ((mintState oracle value i).1.map fun c => c.value).sum + (mintState oracle value i).2.1
      = value
  ∧ (mintState oracle value i).2.1 < 5000000
  ∧ (((mintState oracle value i).1.map fun c => c.index) =
      intRange (i + 1) (mintState oracle value i).1.length)
  ∧ (mintState oracle value i).2.2 = i + (mintState oracle value i).1.length := by
  simp only [mintState]
  obtain ⟨h1, h2, h3⟩ :=
    mintOuter_spec oracle denominations.reverse denominations_reverse_pos value i
  refine ⟨h1, ?_, h2, h3⟩
  have hsplit : denominations.reverse =
      [10000000000, 2500000000, 1000000000, 100000000, 50000000, 10000000] ++ [5000000] := by
    decide
  have := mintOuter_lastRem oracle
    [10000000000, 2500000000, 1000000000, 100000000, 50000000, 10000000] value i 5000000
    (by norm_num)
  rw [hsplit]
  exact this

/-- C4: for every target value, the fixed denomination ladder and
every start index, `getMintCommitmentsForValue` greedily decomposes
the value from largest to smallest denomination: the returned coins
(which are exactly the first component of the final greedy state
`mintState`) have values summing to `value - remainder` with
`0 <= remainder < 5000000` (the smallest denomination), the coins
carry one derivation index each, consecutive and strictly increasing
from `startIndex + 1`, and the final derivation index of the greedy
state is `startIndex + (number of coins)`. -/
theorem getMintCommitmentsForValue_greedy (oracle : SigmaOracle) (value : Nat)
    (startIndex : Int) :
    getMintCommitmentsForValue oracle value startIndex = (mintState oracle value startIndex).1
  ∧ ((getMintCommitmentsForValue oracle value startIndex).map fun c => c.value).sum
      + (mintState oracle value startIndex).2.1 = value
  ∧ (mintState oracle value startIndex).2.1 < 5000000
  ∧ ((getMintCommitmentsForValue oracle value startIndex).map fun c => c.index)
      = intRange (startIndex + 1) (getMintCommitmentsForValue oracle value startIndex).length
  ∧ (mintState oracle value startIndex).2.2
      = startIndex + (getMintCommitmentsForValue oracle value startIndex).length := by
  obtain ⟨h1, h2, h3, h4⟩ := mintState_spec oracle value startIndex
  exact ⟨rfl, h1, h2, h3, h4⟩

/-- C8: every coin returned by `getMintCommitmentsForValue` has an
index strictly greater than the supplied start index, and the first
returned coin (when any) carries `startIndex + 1`: the start index
itself is never assigned, because the source pre-increments
`currentIndex` before each `createPrivateCoin` call. -/
theorem mint_commitments_skip_start_index (oracle : SigmaOracle) (value : Nat)
    (startIndex : Int) :
    ((getMintCommitmentsForValue oracle value startIndex).all
        fun c => decide (startIndex < c.index)) = true
  ∧ ((getMintCommitmentsForValue oracle value startIndex).head?.all
        fun c => c.index == startIndex + 1) = true :=
  by
  obtain ⟨-, -, hidx, -⟩ := mintState_spec oracle value startIndex
  have hl : getMintCommitmentsForValue oracle value startIndex
      = (mintState oracle value startIndex).1 := rfl
  rw [hl]
  constructor
  · rw [List.all_eq_true]
    intro c hc
    have hmem : c.index ∈ (mintState oracle value startIndex).1.map fun c => c.index :=
      List.mem_map_of_mem _ hc
    rw [hidx] at hmem
    have h1 : startIndex + 1 ≤ c.index := (mem_intRange _ _ _ hmem).1
    exact decide_eq_true (by omega)
  · cases hcons : (mintState oracle value startIndex).1 with
    | nil => rfl
    | cons c rest =>
      rw [hcons] at hidx
      simp only [List.map_cons, List.length_cons, intRange] at hidx
      have : c.index = startIndex + 1 := (List.cons.injEq _ _ _ _).mp hidx |>.1
      simp [Option.all, this]

/-- C9: every coin `makeMint` hands to the coin store through
`mintsForSave` has `groupId = -1`, `isSpend = false` and
`spendTxId = ''` at persist time: the builder overwrites these three
fields on every minted coin, whatever `createPrivateCoin` returned. -/
theorem mintsForSave_ungrouped (oracle : SigmaOracle) (balance : Nat)
    (currentMaxIndex : Int) :
    ((mintsForSave oracle balance currentMaxIndex).all
        fun c => c.groupId == -1 && (!c.isSpend) && c.spendTxId == "") = true := by
  rw [List.all_eq_true]
  intro c hc
  simp only [mintsForSave, List.mem_map] at hc
  obtain ⟨c0, -, rfl⟩ := hc
  rfl

/-! ## Lemmas: the restore scan -/

lemma scanBody_index (env : RestoreEnv) (s : ScanState) :
    (scanBody env s).index = s.index + 1 := by
  unfold scanBody
  split <;> rfl

lemma scanBody_coins (env : RestoreEnv) (s : ScanState) (c : PrivateCoin) :
    c ∈ (scanBody env s).coins →
    c ∈ s.coins ∨ ∃ g ∈ env.groups, c.groupId = g.id ∧ c.value = g.denom
      ∧ c.serialNumber = "" ∧ c.spendTxId = "" := by
  unfold scanBody
  split
  next g hfind =>
    intro hc
    simp only [List.mem_append, List.mem_singleton] at hc
    rcases hc with hc | rfl
    · exact Or.inl hc
    · exact Or.inr ⟨g, List.mem_of_find?_eq_some hfind, rfl, rfl, rfl, rfl⟩
  next hfind =>
    intro hc
    exact Or.inl hc

lemma restoreLoop_index_le (env : RestoreEnv) : ∀ (fuel : Nat) (s : ScanState),
    s.index ≤ (restoreLoop env fuel s).index := by
  intro fuel
  induction fuel with
  | zero => intro s; exact le_refl _
  | succ fuel ih =>
    intro s
    rw [restoreLoop]
    by_cases h : s.counter < 100 ∧ s.index < (commitmentCount env : Int)
    · rw [if_pos h]
      have h1 := ih (scanBody env s)
      rw [scanBody_index env s] at h1
      omega
    · rw [if_neg h]

lemma restoreLoop_coins_shape (env : RestoreEnv) : ∀ (fuel : Nat) (s : ScanState)
    (c : PrivateCoin), c ∈ (restoreLoop env fuel s).coins →
    c ∈ s.coins ∨ ∃ g ∈ env.groups, c.groupId = g.id ∧ c.value = g.denom
      ∧ c.serialNumber = "" ∧ c.spendTxId = "" := by
  intro fuel
  induction fuel with
  | zero => intro s c hc; exact Or.inl hc
  | succ fuel ih =>
    intro s c
    rw [restoreLoop]
    by_cases h : s.counter < 100 ∧ s.index < (commitmentCount env : Int)
    · rw [if_pos h]
      intro hc
      rcases ih (scanBody env s) c hc with hmem | hshape
      · exact scanBody_coins env s c hmem
      · exact Or.inr hshape
    · rw [if_neg h]
      exact Or.inl

lemma restoreScan_coins_shape (env : RestoreEnv) (c : PrivateCoin) :
    c ∈ (restoreScan env).coins →
    ∃ g ∈ env.groups, c.groupId = g.id ∧ c.value = g.denom
      ∧ c.serialNumber = "" ∧ c.spendTxId = "" := by
  intro hc
  rcases restoreLoop_coins_shape env (commitmentCount env + 2)
      { counter := 0, index := -1, coins := [] } c hc with hmem | hshape
  · simp at hmem
  · exact hshape

/-- C1 (amended): the restore scan terminates exactly when the
consecutive-miss counter has reached 100 OR the scanned index has
reached the total published commitment count — the `while` condition
`counter++ < 100 && index++ < commitmentCount` is a conjunction, so
the loop exits as soon as either bound fails, not only when both have
been reached.  Formally: a state is a fixpoint of the loop (one more
round of fuel leaves it unchanged) iff its pre-increment counter is at
least 100 or its pre-increment index has reached the commitment
count. -/
theorem restore_scan_stops_on_either_bound (env : RestoreEnv) (s : ScanState) (fuel : Nat) :
    restoreLoop env (fuel + 1) s = s
      ↔ (100 ≤ s.counter ∨ (commitmentCount env : Int) ≤ s.index) := by
  constructor
  · intro h
    by_contra hc
    push_neg at hc
    have hcond : s.counter < 100 ∧ s.index < (commitmentCount env : Int) := by
      constructor <;> omega
    rw [restoreLoop, if_pos hcond] at h
    have hmono := restoreLoop_index_le env fuel (scanBody env s)
    rw [scanBody_index env s] at hmono
    have : (restoreLoop env fuel (scanBody env s)).index = s.index := by rw [h]
    omega
  · intro h
    rw [restoreLoop, if_neg (by omega)]

/-- C1 counterexample: against a chain with no published commitment
groups at all (`commitmentCount = 0`), the restore scan reaches its
exit state after scanning only index 0, with the consecutive-miss
counter at 1 — nowhere near 100.  The extra-fuel run confirms the
state is a true fixpoint of the loop, so the scan does NOT extend 100
consecutive unused indices past the last known commitment: it stops as
soon as the index bound alone fails. -/
theorem restore_scan_terminates_before_100_misses :
    restoreLoop env0 1000 { counter := 0, index := -1, coins := [] } = restoreScan env0
  ∧ (restoreScan env0).counter = 1
  ∧ (restoreScan env0).index = 0
  ∧ (restoreScan env0).coins = []
  ∧ (restoreScan env0).counter < 100 := by
  decide

/-- C10: every coin the restore scan records is persisted with
`serialNumber = ''` and `spendTxId = ''` — the pushed record hardcodes
both fields to the empty string (even when the coin is marked
`isSpend` because its derived serial appears in the used-serials
set). -/
theorem restore_coins_empty_serial_and_txid (env : RestoreEnv) :
    ((restoreScan env).coins.all fun c => c.serialNumber == "" && c.spendTxId == "") = true := by
  rw [List.all_eq_true]
  intro c hc
  obtain ⟨g, -, -, -, hser, htx⟩ := restoreScan_coins_shape env c hc
  rw [hser, htx]
  rfl

/-! ## Lemmas and theorems: groupId writes (C2) -/

lemma getMintMetadataLoop_mem (currentHeight : Int) (mintData : List PrivateCoin)
    (retrieved : List MintMetadata) (c : PrivateCoin) :
    c ∈ getMintMetadataLoop currentHeight mintData retrieved →
    c.groupId = -1 ∨ (∃ c0 ∈ mintData, c.groupId = c0.groupId)
      ∨ ∃ m ∈ retrieved, c.groupId = m.groupId ∧ 5 ≤ currentHeight - m.height := by
  intro hc
  simp only [getMintMetadataLoop, List.mem_map] at hc
  obtain ⟨c0, hc0, rfl⟩ := hc
  by_cases hcom : c0.commitment ≠ ""
  · rw [if_pos hcom]
    cases hlast : (retrieved.filter fun m => m.pubcoin = c0.commitment).getLast? with
    | none => exact Or.inr (Or.inl ⟨c0, hc0, rfl⟩)
    | some m =>
      have hm : m ∈ retrieved := by
        obtain ⟨hne, heq⟩ := List.mem_getLast?_eq_getLast hlast
        exact List.mem_of_mem_filter (heq ▸ List.getLast_mem hne)
      by_cases hh : 5 ≤ currentHeight - m.height
      · refine Or.inr (Or.inr ⟨m, hm, ?_, hh⟩)
        simp [refreshGroupId, hh]
      · refine Or.inl ?_
        simp [refreshGroupId, hh]
  · rw [if_neg hcom]
    exact Or.inr (Or.inl ⟨c0, hc0, rfl⟩)

/-- C2 (amended): of the three operations that write a coin's
`groupId`, only the group-metadata refresh guards the write with the
confirmation depth: `getMintMetadataLoop` leaves a `groupId` that is
either `-1`, inherited unchanged from the stored coin, or copied from
a retrieved record only when `currentHeight - height >= 5`.  Coin
creation (`createPrivateCoin`) always returns `groupId = 0` with no
height check at all, and the restore scan assigns the matched group's
id unconditionally. -/
theorem groupId_write_guards :
    (∀ (currentHeight : Int) (mintData : List PrivateCoin) (retrieved : List MintMetadata)
        (c : PrivateCoin), c ∈ getMintMetadataLoop currentHeight mintData retrieved →
        c.groupId = -1 ∨ (∃ c0 ∈ mintData, c.groupId = c0.groupId)
          ∨ ∃ m ∈ retrieved, c.groupId = m.groupId ∧ 5 ≤ currentHeight - m.height)
  ∧ (∀ (value : Nat) (oracle : SigmaOracle) (index : Int),
        (createPrivateCoin value oracle index).groupId = 0)
  ∧ (∀ (env : RestoreEnv) (c : PrivateCoin), c ∈ (restoreScan env).coins →
        ∃ g ∈ env.groups, c.groupId = g.id) :=
  ⟨getMintMetadataLoop_mem,
   fun _ _ _ => rfl,
   fun env c hc => by
    obtain ⟨g, hg, hid, -⟩ := restoreScan_coins_shape env c hc
    exact ⟨g, hg, hid⟩⟩

/-- Witness for C2: the three branches instantiated — the metadata
refresh at height 10 over `metaCoin` (mined at height 0) writes group
7 under the satisfied guard; `createPrivateCoin` at concrete inputs
returns `groupId = 0`; the coin restored against `env1` carries the id
of the matched group. -/
theorem groupId_write_guards_witness :
    (metaCoin7.groupId = -1 ∨ (∃ c0 ∈ [metaCoin], metaCoin7.groupId = c0.groupId)
      ∨ ∃ m ∈ [meta1], metaCoin7.groupId = m.groupId ∧ 5 ≤ (10 : Int) - m.height)
  ∧ (createPrivateCoin 100000000 oracle0 0).groupId = 0
  ∧ ∃ g ∈ env1.groups, restoredCoin1.groupId = g.id :=
  ⟨groupId_write_guards.1 10 [metaCoin] [meta1] metaCoin7 (by decide),
   groupId_write_guards.2.1 100000000 oracle0 0,
   groupId_write_guards.2.2 env1 restoredCoin1 (by decide)⟩

/-- C2 counterexample: coin creation writes `groupId = 0`, a value
other than `-1`, with no height condition: at mint height equal to the
current height (difference 0 < 5) the claimed guard fails while the
write is still not `-1`. -/
theorem createPrivateCoin_groupId_unguarded :
    (createPrivateCoin 100000000 oracle0 0).groupId ≠ -1 ∧ ¬ (5 ≤ (0 : Int) - 0) := by
  decide

/-! ## Lemmas and theorems: spend selection (C3) -/

lemma selectGreedy_subset : ∀ (l : List PrivateCoin) (t : Nat), selectGreedy t l ⊆ l := by
  intro l
  induction l with
  | nil => intro t; simp [selectGreedy]
  | cons c rest ih =>
    intro t
    by_cases ht : t = 0
    · simp [selectGreedy, ht]
    · simp only [selectGreedy, if_neg ht]
      exact List.cons_subset_cons c (ih (t - c.value))

lemma selectGreedy_sum : ∀ (l : List PrivateCoin) (t : Nat),
    t ≤ (l.map fun c => c.value).sum →
    t ≤ ((selectGreedy t l).map fun c => c.value).sum := by
  intro l
  induction l with
  | nil => intro t ht; simpa [selectGreedy] using ht
  | cons c rest ih =>
    intro t ht
    by_cases h0 : t = 0
    · simp [selectGreedy, h0]
    · simp only [selectGreedy, if_neg h0, List.map_cons, List.sum_cons]
      simp only [List.map_cons, List.sum_cons] at ht
      have := ih (t - c.value) (by omega)
      omega

lemma getMintsToSpend_subset (coins : List PrivateCoin) (t : Nat) :
    getMintsToSpend coins t ⊆ coins := by
  unfold getMintsToSpend
  by_cases h : (coins.map fun c => c.value).sum < t
  · simp [h]
  · rw [if_neg h]
    exact (selectGreedy_subset _ t).trans (List.perm_insertionSort _ coins).subset

lemma getMintsToSpend_covers (coins : List PrivateCoin) (t : Nat)
    (h : t ≤ (coins.map fun c => c.value).sum) :
    t ≤ ((getMintsToSpend coins t).map fun c => c.value).sum := by
  unfold getMintsToSpend
  rw [if_neg (not_lt.mpr h)]
  refine selectGreedy_sum _ t ?_
  have hperm : List.Perm
      ((coins.insertionSort fun a b => b.value ≤ a.value).map fun c => c.value)
      (coins.map fun c => c.value) :=
    (List.perm_insertionSort _ coins).map _
  rw [hperm.sum_eq]
  exact h

lemma mem_approvedMints (mintData : List PrivateCoin) (c : PrivateCoin) :
    c ∈ approvedMints mintData ↔
    c ∈ mintData ∧ c.groupId ≠ 0 ∧ c.groupId ≠ -1 ∧ c.isSpend = false := by
  simp [approvedMints, List.mem_filter, and_assoc]

/-- C3 (amended): the spend path approves exactly the stored coins
with `groupId` outside `{0, -1}` and `isSpend = false` (the source
tests JavaScript truthiness of `groupId`, so group 0 is excluded as
well, unlike the claimed `groupId != -1`); the modelled selection
returns only approved coins, covers the target whenever any approved
sub-collection covers it (equivalently, whenever the approved total
does), and yields an empty result surfaced as
`InsufficientFundsError` when the approved total falls short. -/
theorem spend_selection_contract :
    (∀ (mintData : List PrivateCoin) (target : Nat) (c : PrivateCoin),
        c ∈ getMintsToSpend (approvedMints mintData) target →
        c ∈ mintData ∧ c.groupId ≠ 0 ∧ c.groupId ≠ -1 ∧ c.isSpend = false)
  ∧ (∀ (mintData : List PrivateCoin) (target : Nat),
        target ≤ ((approvedMints mintData).map fun c => c.value).sum →
        target ≤ ((getMintsToSpend (approvedMints mintData) target).map fun c => c.value).sum)
  ∧ (∀ (sub mintData : List PrivateCoin) (target : Nat),
        sub.Sublist (approvedMints mintData) →
        target ≤ (sub.map fun c => c.value).sum →
        target ≤ ((approvedMints mintData).map fun c => c.value).sum)
  ∧ (∀ (mintData : List PrivateCoin) (target : Nat),
        ((approvedMints mintData).map fun c => c.value).sum < target →
        getMintsToSpend (approvedMints mintData) target = []
          ∧ makeSpendSelect mintData target = Except.error "InsufficientFundsError") := by
  refine ⟨?_, ?_, ?_, ?_⟩
  · intro mintData target c hc
    exact (mem_approvedMints mintData c).mp (getMintsToSpend_subset _ target hc)
  · intro mintData target h
    exact getMintsToSpend_covers _ target h
  · intro sub mintData target hsub hsum
    refine hsum.trans ?_
    exact List.Sublist.sum_le_sum (hsub.map fun c => c.value) fun a _ => Nat.zero_le a
  · intro mintData target h
    have hempty : getMintsToSpend (approvedMints mintData) target = [] := by
      unfold getMintsToSpend
      rw [if_pos h]
    refine ⟨hempty, ?_⟩
    unfold makeSpendSelect
    rw [hempty]
    rfl

/-- Witness for C3: each branch of `spend_selection_contract`
instantiated at concrete inputs — the coin in group 1 is selected for
a 50000000 spend and satisfies the approval facts, the covering bound
holds there, the sublist bound holds for the singleton, and the empty
store surfaces `InsufficientFundsError` for a 1-unit spend. -/
theorem spend_selection_contract_witness :
    (approvedCoin ∈ [approvedCoin] ∧ approvedCoin.groupId ≠ 0 ∧ approvedCoin.groupId ≠ -1
      ∧ approvedCoin.isSpend = false)
  ∧ (50000000 ≤ ((getMintsToSpend (approvedMints [approvedCoin]) 50000000).map
        fun c => c.value).sum)
  ∧ (1 ≤ ((approvedMints [approvedCoin]).map fun c => c.value).sum)
  ∧ (getMintsToSpend (approvedMints []) 1 = []
      ∧ makeSpendSelect [] 1 = Except.error "InsufficientFundsError") :=
  ⟨spend_selection_contract.1 [approvedCoin] 50000000 approvedCoin (by decide),
   spend_selection_contract.2.1 [approvedCoin] 50000000 (by decide),
   spend_selection_contract.2.2.1 [approvedCoin] [approvedCoin] 1 (by decide) (by decide),
   spend_selection_contract.2.2.2 [] 1 (by decide)⟩

/-- C3 counterexample: a stored coin with `groupId = 0`, not spent and
worth 100000000, is approved under the claimed rule (`groupId != -1`
and `isSpend == false`) and alone covers a 1-unit target, so the claim
demands a non-empty selection; the code's truthiness test drops it and
the spend fails with `InsufficientFundsError`. -/
theorem spend_selection_excludes_group_zero :
    makeSpendSelect [groupZeroCoin] 1 = Except.error "InsufficientFundsError"
  ∧ groupZeroCoin.groupId ≠ -1 ∧ groupZeroCoin.isSpend = false
  ∧ 1 ≤ groupZeroCoin.value :=
  ⟨rfl, by decide, rfl, by decide⟩

/-! ## Lemmas and theorems: the auto-mint retry loop (C5) -/

lemma mintLoop_success (attempt : Nat → MintOutcome) (amount : Nat)
    (h : attempt amount = MintOutcome.success) :
    mintLoop attempt amount = some amount := by
  rw [mintLoop, h]

lemma mintLoop_other (attempt : Nat → MintOutcome) (amount : Nat)
    (h : attempt amount = MintOutcome.otherError) :
    mintLoop attempt amount = none := by
  rw [mintLoop, h]

lemma mintLoop_funds_low (attempt : Nat → MintOutcome) (amount : Nat)
    (h : attempt amount = MintOutcome.insufficientFunds) (hle : amount ≤ 5000000) :
    mintLoop attempt amount = none := by
  rw [mintLoop, h]
  exact dif_neg (by omega)

lemma mintLoop_funds_high (attempt : Nat → MintOutcome) (amount : Nat)
    (h : attempt amount = MintOutcome.insufficientFunds) (hgt : 5000000 < amount) :
    mintLoop attempt amount = mintLoop attempt (amount - 5000000) := by
  rw [mintLoop, h]
  exact dif_pos hgt

lemma mintAttempts_success (attempt : Nat → MintOutcome) (amount : Nat)
    (h : attempt amount = MintOutcome.success) :
    mintAttempts attempt amount = 1 := by
  rw [mintAttempts, h]

lemma mintAttempts_other (attempt : Nat → MintOutcome) (amount : Nat)
    (h : attempt amount = MintOutcome.otherError) :
    mintAttempts attempt amount = 1 := by
  rw [mintAttempts, h]

lemma mintAttempts_funds_low (attempt : Nat → MintOutcome) (amount : Nat)
    (h : attempt amount = MintOutcome.insufficientFunds) (hle : amount ≤ 5000000) :
    mintAttempts attempt amount = 1 := by
  rw [mintAttempts, h]
  exact dif_neg (by omega)

lemma mintAttempts_funds_high (attempt : Nat → MintOutcome) (amount : Nat)
    (h : attempt amount = MintOutcome.insufficientFunds) (hgt : 5000000 < amount) :
    mintAttempts attempt amount = mintAttempts attempt (amount - 5000000) + 1 := by
  rw [mintAttempts, h]
  exact dif_pos hgt

/-- C5 (amended): the `while (tryAgain)` loop of `mint` retries an
insufficient-funds failure repeatedly — not once — reducing the amount
by the smallest denomination (5000000) at each round, until the
attempt succeeds, the amount no longer exceeds the smallest
denomination, or a non-funds error occurs; a non-funds error (and an
exhausted amount) abandons the cycle silently after that single
attempt, and no error ever escapes the loop (its result is an
`Option`). -/
theorem mint_retry_loop_behaviour :
    (∀ (attempt : Nat → MintOutcome) (amount : Nat),
        attempt amount = MintOutcome.success →
        mintLoop attempt amount = some amount ∧ mintAttempts attempt amount = 1)
  ∧ (∀ (attempt : Nat → MintOutcome) (amount : Nat),
        attempt amount = MintOutcome.otherError →
        mintLoop attempt amount = none ∧ mintAttempts attempt amount = 1)
  ∧ (∀ (attempt : Nat → MintOutcome) (amount : Nat),
        attempt amount = MintOutcome.insufficientFunds → amount ≤ 5000000 →
        mintLoop attempt amount = none ∧ mintAttempts attempt amount = 1)
  ∧ (∀ (attempt : Nat → MintOutcome) (amount : Nat),
        attempt amount = MintOutcome.insufficientFunds → 5000000 < amount →
        mintLoop attempt amount = mintLoop attempt (amount - 5000000)
          ∧ mintAttempts attempt amount = mintAttempts attempt (amount - 5000000) + 1) :=
  ⟨fun attempt amount h => ⟨mintLoop_success attempt amount h,
      mintAttempts_success attempt amount h⟩,
   fun attempt amount h => ⟨mintLoop_other attempt amount h,
      mintAttempts_other attempt amount h⟩,
   fun attempt amount h hle => ⟨mintLoop_funds_low attempt amount h hle,
      mintAttempts_funds_low attempt amount h hle⟩,
   fun attempt amount h hgt => ⟨mintLoop_funds_high attempt amount h hgt,
      mintAttempts_funds_high attempt amount h hgt⟩⟩

/-- Witness for C5: an attempt oracle that always reports insufficient
funds, at amount 15000000 — the loop retries at 10000000, costing one
extra attempt. -/
theorem mint_retry_loop_behaviour_witness :
    mintLoop alwaysInsufficient 15000000 = mintLoop alwaysInsufficient 10000000
  ∧ mintAttempts alwaysInsufficient 15000000 = mintAttempts alwaysInsufficient 10000000 + 1 := by
  have h := mint_retry_loop_behaviour.2.2.2 alwaysInsufficient 15000000 rfl (by norm_num)
  have harith : (15000000 - 5000000 : Nat) = 10000000 := by norm_num
  rw [harith] at h
  exact h

/-- C5 counterexample: with insufficient funds reported at every
amount, minting 15000000 performs three `makeMint` attempts
(15000000, 10000000 and 5000000), i.e. two retries — the claim that a
funds failure "is retried once" is false. -/
theorem mint_retries_repeatedly :
    mintAttempts alwaysInsufficient 15000000 = 3 ∧ 2 < 3 := by
  have h1 : mintAttempts alwaysInsufficient 15000000
      = mintAttempts alwaysInsufficient 10000000 + 1 := by
    have ha : (15000000 : Nat) - 5000000 = 10000000 := by norm_num
    have h := mintAttempts_funds_high alwaysInsufficient 15000000 rfl (by norm_num)
    rw [ha] at h
    exact h
  have h2 : mintAttempts alwaysInsufficient 10000000
      = mintAttempts alwaysInsufficient 5000000 + 1 := by
    have ha : (10000000 : Nat) - 5000000 = 5000000 := by norm_num
    have h := mintAttempts_funds_high alwaysInsufficient 10000000 rfl (by norm_num)
    rw [ha] at h
    exact h
  have h3 : mintAttempts alwaysInsufficient 5000000 = 1 :=
    mintAttempts_funds_low alwaysInsufficient 5000000 rfl (by norm_num)
  refine ⟨?_, by norm_num⟩
  rw [h1, h2, h3]

/-! ## Theorems: CPFP candidate selection (C6) -/

/-- C6, evaluated at the failing input: a CPFP build with
`CPFPlimit = 1` against the two candidate outputs of parent `p`
(values 100 and 200, in that order) selects the FIRST candidate — the
100-valued output, not the largest — because the sort comparator at
`src/utils/coinUtils.js` lines 217-220 applies `parseInt` to the
output objects instead of their `value` fields, which compares every
pair as equal and leaves the order unchanged.  The build does produce
exactly one change output carrying `sum(selected) - fee`
(here 100 - 10 = 90) with the fee subtracted from that output. -/
theorem createTX_cpfp_picks_first_candidate :
    createTX [cpfpUtxo0, cpfpUtxo1] [] "chg" "p" 1 10
      = Except.ok ([cpfpUtxo0], [{ address := "chg", value := 90 }])
  ∧ sumUtxos [cpfpUtxo0] = 100 ∧ sumUtxos [cpfpUtxo1] = 200 ∧ 100 < 200 := by
  refine ⟨rfl, rfl, rfl, by norm_num⟩

/-! ## Theorems: the restore marker (C7) -/

/-- C7: the restore marker is written only after the rebuilt coin set
was successfully persisted — the run reports success and leaves the
marker set exactly when both the coin-set write and the marker write
succeed; whenever either write fails, restore returns `false` and the
marker is still absent (so the scan retries on the next load), and a
set marker guarantees the coin set on disk is the rebuilt one. -/
theorem restore_marker_only_after_persist (coinsWriteOk markerWriteOk : Bool)
    (mintData : List PrivateCoin) (store : RestoreStore) (hm : store.marker = false) :
    ((restorePersist coinsWriteOk markerWriteOk mintData store).2.marker
        = (coinsWriteOk && markerWriteOk))
  ∧ ((restorePersist coinsWriteOk markerWriteOk mintData store).1
        = (coinsWriteOk && markerWriteOk))
  ∧ ((restorePersist coinsWriteOk markerWriteOk mintData store).2.marker = true →
        (restorePersist coinsWriteOk markerWriteOk mintData store).2.mintFile = some mintData)
  ∧ ((restorePersist coinsWriteOk markerWriteOk mintData store).1 = false →
        (restorePersist coinsWriteOk markerWriteOk mintData store).2.marker = false) := by
  cases coinsWriteOk <;> cases markerWriteOk <;>
    simp [restorePersist, hm]

/-- Witness for C7: a failing marker write after a successful coin-set
write — the run reports failure and the marker stays absent. -/
theorem restore_marker_only_after_persist_witness :
    ((restorePersist true false [restoredCoin1] { mintFile := none, marker := false }).2.marker
        = (true && false))
  ∧ ((restorePersist true false [restoredCoin1] { mintFile := none, marker := false }).1
        = (true && false))
  ∧ ((restorePersist true false [restoredCoin1] { mintFile := none, marker := false }).2.marker
        = true →
      (restorePersist true false [restoredCoin1] { mintFile := none, marker := false }).2.mintFile
        = some [restoredCoin1])
  ∧ ((restorePersist true false [restoredCoin1] { mintFile := none, marker := false }).1
        = false →
      (restorePersist true false [restoredCoin1] { mintFile := none, marker := false }).2.marker
        = false) :=
  restore_marker_only_after_persist true false [restoredCoin1]
    { mintFile := none, marker := false } rfl

end EdgeZcoin
